import Mathlib

/- Shallow embedding of src/ai_code_reviewer.py: a linear pipeline that clones a
repository, collects source files by extension, reads them, packs them into a
character-bounded prompt, sends the prompt to a chat-completion endpoint and
writes the returned review to disk. Pure string manipulation is embedded
directly; filesystem walking, file reads and the HTTP call are embedded as
explicit inputs (entry lists, read outcomes, a response function), and the
orchestrator main is a state transformer over an abstract world holding the
scratch-directory flag and the output file. -/

set_option maxRecDepth 8000

namespace AICodeReviewer

/- Configuration constants, transcribed from the module-level globals. -/

def SUPPORTED_EXTENSIONS : List String :=
  [".py", ".js", ".ts", ".jsx", ".tsx", ".java", ".cpp", ".c", ".h", ".hpp",
   ".cs", ".go", ".rs", ".rb", ".php", ".swift", ".kt", ".scala", ".html", ".css",
   ".scss", ".sass", ".json", ".yaml", ".yml", ".md", ".sh", ".bash", ".sql"]

def EXCLUDE_DIRS : List String :=
  ["__pycache__", "node_modules", "venv", "env", ".git", ".svn", ".hg",
   "dist", "build", "target", "out", "bin", "obj", ".idea", ".vscode",
   ".DS_Store", "Thumbs.db"]

def MAX_TOTAL_CHARS : Nat := 100000

/- Model of pathlib pieces used by the code. A relative path is its list of
components (pathlib parts); the file name is the last component. -/

/- Index of the last occurrence of a character in a list, as str.rfind. -/
def pyRfind (c : Char) : List Char → Option Nat
  | [] => none
  | a :: rest =>
    match pyRfind c rest with
    | some i => some (i + 1)
    | none => if a = c then some 0 else none

/- pathlib suffix of a file name: the part from the last dot on, empty when the
dot is absent, leading or trailing (PurePath.suffix computes name[i:] when
0 < i < len(name) - 1 for i = name.rfind of the dot). -/
def pySuffix (name : String) : String :=
  match pyRfind '.' name.toList with
  | some i =>
    if 0 < i ∧ i + 1 < name.toList.length then String.mk (name.toList.drop i) else ""
  | none => ""

/- str.lower restricted to ASCII, which covers every extension compared here. -/
def pyLower (s : String) : String := String.mk (s.toList.map Char.toLower)

def pathSep : String := "/"

def noName : String := ""

/- str of a relative PurePath: components joined by the separator. -/
def renderPath (p : List String) : String := String.intercalate pathSep p

/- A filesystem entry yielded by root.rglob: relative path components plus the
is_file flag. -/
structure FSEntry where
  parts : List String
  isFile : Bool
deriving DecidableEq

/- Lexicographic order on component lists, the order pathlib uses to compare
paths (tuple comparison on parts, each component compared as a string). -/
def pathLe : List String → List String → Bool
  | [], _ => true
  | _ :: _, [] => false
  | a :: as, b :: bs => decide (a < b) || (decide (a = b) && pathLe as bs)

/- The filter applied to each rglob entry in collect_code_files: is_file, the
lowered suffix is allow-listed, and no relative-path component is excluded. -/
def entryAllowed (e : FSEntry) : Bool :=
  e.isFile
    && decide (pyLower (pySuffix (e.parts.getLastD noName)) ∈ SUPPORTED_EXTENSIONS)
    && !(e.parts.any fun part => decide (part ∈ EXCLUDE_DIRS))

/- collect_code_files: keep the entries passing the filter and return their
paths sorted (the source sorts the absolute Path objects; with the fixed clone
root prefixed to every path this is the same order as sorting the relative
parts). -/
def collect_code_files (entries : List FSEntry) : List (List String) :=
  ((entries.filter entryAllowed).map FSEntry.parts).mergeSort pathLe

/- read_file_safe: the attempted UTF-8 read is embedded as its outcome; the
function is total, returning the content on success and the bracketed
placeholder embedding the exception text on any failure. -/
def read_file_safe (outcome : Except String String) : String :=
  match outcome with
  | Except.ok content => content
  | Except.error e => "[ERROR reading file: " ++ e ++ "]"

/- build_prompt: the instructional preamble, with the repository URL spliced
into the first line. -/
def introPre : String :=
  "You are an expert software engineer performing a professional code review for the GitHub repository: "

def introPost : String :=
  "\n\nReview the following code files. Focus on:\n- Code quality, readability, and maintainability\n- Potential bugs or security issues\n- Performance concerns\n- Adherence to best practices\n- Suggestions for improvement (be specific and constructive)\n\nProvide your feedback in the following format:\n\n## Summary\n<Brief overall assessment>\n\n## Findings\n- [Severity: High/Medium/Low] in `filename`: <description>\n- ...\n\n## Recommendations\n<General advice for the project>\n\n---\n\n"

def introOf (repo_url : String) : String := introPre ++ repo_url ++ introPost

/- file_path.suffix[1:]: the suffix with its first character removed. The
Python slice is by code points, embedded as a drop on the character list. -/
def tagOf (name : String) : String := String.mk ((pySuffix name).toList.drop 1)

/- One file block: heading with the relative path, then a fenced code block
tagged with the suffix minus its leading dot, holding the raw content. -/
def blockOf (snippet : List String × String) : String :=
  "### " ++ renderPath snippet.1 ++ "\n\n```" ++ tagOf (snippet.1.getLastD noName)
    ++ "\n" ++ snippet.2 ++ "\n```\n\n"

/- The packing loop of build_prompt: starting from the accumulated character
count, append each block unless doing so would push the total past
MAX_TOTAL_CHARS, in which case stop for good. -/
def packBlocks (total : Nat) : List String → List String
  | [] => []
  | b :: rest =>
    if MAX_TOTAL_CHARS < total + b.length then []
    else b :: packBlocks (total + b.length) rest

def build_prompt (code_snippets : List (List String × String)) (repo_url : String) : String :=
  introOf repo_url
    ++ String.join (packBlocks (introOf repo_url).length (code_snippets.map blockOf))

/- Model of the chat-completion HTTP exchange seen by get_code_review. -/

structure RMessage where
  content : String
deriving DecidableEq

structure RChoice where
  message : RMessage
deriving DecidableEq

structure RBody where
  choices : List RChoice
deriving DecidableEq

/- The response: status code, raw body text, and the parsed JSON body when the
body parses to the expected shape (none embeds a parse or shape failure). -/
structure HttpResponse where
  status_code : Nat
  text : String
  json : Option RBody
deriving DecidableEq

def jsonErrMsg : String := "JSONDecodeError"

def indexErrMsg : String := "IndexError: list index out of range"

/- get_code_review: raise on any non-200 status with a message embedding the
status code and body text; on 200 extract choices[0].message.content. The
error side of Except embeds the raised exception. -/
def get_code_review (response : HttpResponse) : Except String String :=
  if response.status_code ≠ 200 then
    Except.error ("OpenRouter API error: " ++ toString response.status_code ++ " - " ++ response.text)
  else
    match response.json with
    | none => Except.error jsonErrMsg
    | some j =>
      match j.choices with
      | [] => Except.error indexErrMsg
      | c :: _ => Except.ok c.message.content

/- Orchestrator model. The world records the two filesystem facts the claims
are about: whether the scratch clone directory exists and the output file
contents. -/
structure World where
  scratchExists : Bool
  output : Option String
deriving DecidableEq

/- External behavior for one run: whether git clone succeeds, whether a failed
clone leaves a partial directory behind, the rglob entries of the clone, the
read outcome for each relative path, and the endpoint response to a prompt. -/
structure Oracle where
  cloneOk : Bool
  cloneFailLeavesDir : Bool
  entries : List FSEntry
  readOutcome : List String → Except String String
  respond : String → HttpResponse

/- Events observed during a run, used to state the temporal claims. -/
structure RunTrace where
  staleRemovedBeforeClone : Bool
  promptBuilt : Bool
  reviewInvoked : Bool
  printedNoFiles : Bool
deriving DecidableEq

structure RunResult where
  outcome : Except String Unit
  world : World
  trace : RunTrace

def cloneErrMsg : String := "CalledProcessError: git clone exited with nonzero status"

/- The finally clause of main: remove the scratch directory when it exists. -/
def runFinally (w : World) : World :=
  if w.scratchExists then { w with scratchExists := false } else w

/- main, after argument parsing: clone_repo (removing a stale scratch
directory first), collect_code_files, the empty-list early return, reading
every file through read_file_safe, build_prompt, get_code_review, the output
write, all wrapped in try/finally that removes the scratch directory. -/
def mainRun (o : Oracle) (repo_url : String) (w0 : World) : RunResult :=
  if o.cloneOk = false then
    { outcome := Except.error cloneErrMsg
      world := runFinally { scratchExists := o.cloneFailLeavesDir, output := w0.output }
      trace := { staleRemovedBeforeClone := w0.scratchExists, promptBuilt := false,
                 reviewInvoked := false, printedNoFiles := false } }
  else if (collect_code_files o.entries).isEmpty then
    { outcome := Except.ok ()
      world := runFinally { scratchExists := true, output := w0.output }
      trace := { staleRemovedBeforeClone := w0.scratchExists, promptBuilt := false,
                 reviewInvoked := false, printedNoFiles := true } }
  else
    match get_code_review (o.respond (build_prompt
        ((collect_code_files o.entries).map fun p => (p, read_file_safe (o.readOutcome p)))
        repo_url)) with
    | Except.error e =>
      { outcome := Except.error e
        world := runFinally { scratchExists := true, output := w0.output }
        trace := { staleRemovedBeforeClone := w0.scratchExists, promptBuilt := true,
                   reviewInvoked := true, printedNoFiles := false } }
    | Except.ok review =>
      { outcome := Except.ok ()
        world := runFinally { scratchExists := true, output := some review }
        trace := { staleRemovedBeforeClone := w0.scratchExists, promptBuilt := true,
                   reviewInvoked := true, printedNoFiles := false } }

/- Concrete inputs used to evaluate the theorems below on closed instances. -/

def bigUrl : String := String.mk (List.replicate 100001 'a')

def bigContent : String := String.mk (List.replicate 100000 'a')

def wUrl : String := "u"

def c1Url : String := "https://example.com/user/repo.git"

def wSnipA : List String × String := (["a.py"], "x")

def wSnipB : List String × String := (["b.py"], bigContent)

def wSnipC : List String × String := (["c.py"], "y")

def wSnips : List (List String × String) := [wSnipA, wSnipB, wSnipC]

def wEntryMain : FSEntry := { parts := ["main.py"], isFile := true }

def wEntryDep : FSEntry := { parts := ["node_modules", "a.js"], isFile := true }

def wEntryDir : FSEntry := { parts := ["docs"], isFile := false }

def wEntries : List FSEntry := [wEntryMain, wEntryDep, wEntryDir]

def wTagPath : List String := ["src", "app.py"]

def msgX : String := "X"

def wChoice : RChoice := { message := { content := msgX } }

def wBody : RBody := { choices := [wChoice] }

def resp500 : HttpResponse := { status_code := 500, text := "Server exploded", json := some wBody }

def resp200 : HttpResponse := { status_code := 200, text := "ok", json := some wBody }

def wErrMsg : String := "Errno 13 Permission denied"

def priorReport : String := "old report"

def wWorld : World := { scratchExists := true, output := some priorReport }

def oFail : Oracle :=
  { cloneOk := false, cloneFailLeavesDir := true, entries := []
    readOutcome := fun _ => Except.ok noName, respond := fun _ => resp200 }

def oEmpty : Oracle :=
  { cloneOk := true, cloneFailLeavesDir := false, entries := [wEntryDep]
    readOutcome := fun _ => Except.ok noName, respond := fun _ => resp200 }

/- Helper lemmas. -/

theorem length_foldl_append (l : List String) :
    ∀ s : String, (l.foldl (fun r t => r ++ t) s).length = s.length + (l.map String.length).sum := by
  induction l with
  | nil => intro s; simp
  | cons b rest ih =>
    intro s
    simp only [List.foldl_cons, List.map_cons, List.sum_cons]
    rw [ih (s ++ b), String.length_append]
    omega

theorem join_length (l : List String) :
    (String.join l).length = (l.map String.length).sum := by
  have h := length_foldl_append l ""
  simpa [String.join] using h

theorem packBlocks_length_le (bs : List String) :
    ∀ t : Nat, t ≤ MAX_TOTAL_CHARS →
      t + ((packBlocks t bs).map String.length).sum ≤ MAX_TOTAL_CHARS := by
  induction bs with
  | nil => intro t ht; simpa [packBlocks] using ht
  | cons b rest ih =>
    intro t ht
    by_cases h : MAX_TOTAL_CHARS < t + b.length
    · simpa [packBlocks, h] using ht
    · push_neg at h
      have hrec := ih (t + b.length) h
      simp only [packBlocks, if_neg (not_lt.mpr h), List.map_cons, List.sum_cons]
      omega

theorem packBlocks_take (bs : List String) :
    ∀ (t k : Nat), k < bs.length →
      t + ((bs.take k).map String.length).sum ≤ MAX_TOTAL_CHARS →
      MAX_TOTAL_CHARS < t + ((bs.take (k + 1)).map String.length).sum →
      packBlocks t bs = bs.take k := by
  induction bs with
  | nil => intro t k hk _ _; simp at hk
  | cons b rest ih =>
    intro t k hk hfit hover
    cases k with
    | zero =>
      simp only [List.take_succ_cons, List.take_zero, List.map_cons, List.map_nil,
        List.sum_cons, List.sum_nil] at hover
      simp only [packBlocks, List.take_zero]
      rw [if_pos (by omega)]
    | succ j =>
      simp only [List.take_succ_cons, List.map_cons, List.sum_cons] at hfit hover
      have hble : ¬ MAX_TOTAL_CHARS < t + b.length := by omega
      simp only [packBlocks, if_neg hble, List.take_succ_cons]
      have hj : j < rest.length := by simpa using hk
      rw [ih (t + b.length) j hj (by omega) (by omega)]

theorem packBlocks_take_exists (bs : List String) :
    ∀ t : Nat, ∃ k, packBlocks t bs = bs.take k := by
  induction bs with
  | nil => intro t; exact ⟨0, rfl⟩
  | cons b rest ih =>
    intro t
    by_cases h : MAX_TOTAL_CHARS < t + b.length
    · exact ⟨0, by simp [packBlocks, h]⟩
    · obtain ⟨k, hk⟩ := ih (t + b.length)
      exact ⟨k + 1, by simp [packBlocks, h, hk]⟩

theorem packBlocks_nil_of_over (bs : List String) :
    ∀ t : Nat, MAX_TOTAL_CHARS < t → packBlocks t bs = [] := by
  induction bs with
  | nil => intro t _; rfl
  | cons b rest _ =>
    intro t ht
    simp only [packBlocks]
    rw [if_pos (by omega)]

theorem pathLe_trans :
    ∀ a b c : List String, pathLe a b = true → pathLe b c = true → pathLe a c = true := by
  intro a
  induction a with
  | nil => intro b c _ _; rfl
  | cons x xs ih =>
    intro b c hab hbc
    cases b with
    | nil => simp [pathLe] at hab
    | cons y ys =>
      cases c with
      | nil => simp [pathLe] at hbc
      | cons z zs =>
        simp only [pathLe, Bool.or_eq_true, Bool.and_eq_true, decide_eq_true_eq] at hab hbc ⊢
        rcases hab with hxy | ⟨hxy, hrec1⟩
        · rcases hbc with hyz | ⟨hyz, _⟩
          · exact Or.inl (lt_trans hxy hyz)
          · exact Or.inl (hyz ▸ hxy)
        · rcases hbc with hyz | ⟨hyz, hrec2⟩
          · exact Or.inl (hxy ▸ hyz)
          · exact Or.inr ⟨hxy.trans hyz, ih ys zs hrec1 hrec2⟩

theorem pathLe_total :
    ∀ a b : List String, (pathLe a b || pathLe b a) = true := by
  intro a
  induction a with
  | nil => intro b; simp [pathLe]
  | cons x xs ih =>
    intro b
    cases b with
    | nil => simp [pathLe]
    | cons y ys =>
      simp only [pathLe, Bool.or_eq_true, Bool.and_eq_true, decide_eq_true_eq]
      rcases lt_trichotomy x y with h | h | h
      · exact Or.inl (Or.inl h)
      · have := ih ys
        simp only [Bool.or_eq_true] at this
        rcases this with hr | hr
        · exact Or.inl (Or.inr ⟨h, hr⟩)
        · exact Or.inr (Or.inr ⟨h.symm, hr⟩)
      · exact Or.inr (Or.inl h)

theorem pathLe_antisymm :
    ∀ a b : List String, pathLe a b = true → pathLe b a = true → a = b := by
  intro a
  induction a with
  | nil =>
    intro b _ hba
    cases b with
    | nil => rfl
    | cons y ys => simp [pathLe] at hba
  | cons x xs ih =>
    intro b hab hba
    cases b with
    | nil => simp [pathLe] at hab
    | cons y ys =>
      simp only [pathLe, Bool.or_eq_true, Bool.and_eq_true, decide_eq_true_eq] at hab hba
      rcases hab with hxy | ⟨hxy, hrec1⟩
      · rcases hba with hyx | ⟨hyx, _⟩
        · exact absurd hyx (lt_asymm hxy)
        · exact absurd (hyx ▸ hxy) (lt_irrefl y)
      · rcases hba with hyx | ⟨_, hrec2⟩
        · exact absurd (hxy ▸ hyx) (lt_irrefl y)
        · rw [hxy, ih ys hrec1 hrec2]

theorem pyRfind_drop (c : Char) :
    ∀ (l : List Char) (i : Nat), pyRfind c l = some i → ∃ t, l.drop i = c :: t := by
  intro l
  induction l with
  | nil => intro i h; simp [pyRfind] at h
  | cons a rest ih =>
    intro i h
    simp only [pyRfind] at h
    cases hr : pyRfind c rest with
    | some j =>
      rw [hr] at h
      obtain ⟨t, ht⟩ := ih j hr
      cases h
      exact ⟨t, by simpa using ht⟩
    | none =>
      rw [hr] at h
      by_cases hac : a = c
      · rw [if_pos hac] at h
        cases h
        exact ⟨rest, by simp [hac]⟩
      · rw [if_neg hac] at h
        cases h

theorem pySuffix_eq_dot_tag (name : String) (h : pySuffix name ≠ "") :
    pySuffix name = "." ++ tagOf name := by
  unfold tagOf
  unfold pySuffix at h ⊢
  cases hr : pyRfind '.' name.toList with
  | none => rw [hr] at h; exact absurd rfl h
  | some i =>
    rw [hr] at h
    dsimp only at h ⊢
    by_cases hc : 0 < i ∧ i + 1 < name.toList.length
    · rw [if_pos hc]
      obtain ⟨t, ht⟩ := pyRfind_drop '.' name.toList i hr
      rw [ht]
      rfl
    · rw [if_neg hc] at h
      exact absurd rfl h

theorem sum_two_ge (a b : String) : b.length ≤ (List.map String.length [a, b]).sum := by
  simp

theorem introOf_length (repo_url : String) :
    (introOf repo_url).length = introPre.length + repo_url.length + introPost.length := by
  unfold introOf
  rw [String.length_append, String.length_append]

theorem bigUrl_length : bigUrl.length = 100001 := by
  rw [show bigUrl.length = (List.replicate 100001 'a').length from rfl, List.length_replicate]

theorem bigContent_length : bigContent.length = 100000 := by
  rw [show bigContent.length = (List.replicate 100000 'a').length from rfl, List.length_replicate]

theorem blockOf_length (p : List String) (c : String) :
    (blockOf (p, c)).length
      = (renderPath p).length + (tagOf (p.getLastD noName)).length + c.length + 16 := by
  have e1 : ("### ").length = 4 := rfl
  have e2 : ("\n\n```").length = 5 := rfl
  have e3 : ("\n").length = 1 := rfl
  have e4 : ("\n```\n\n").length = 6 := rfl
  simp only [blockOf, String.length_append, e1, e2, e3, e4]
  omega

/-- C1 (amended): provided the preamble, which embeds the repository URL, fits
within the budget, the document returned by build_prompt has total character
length at most MAX_TOTAL_CHARS; the budget covers preamble plus included
blocks. -/
theorem c1_build_prompt_within_budget (code_snippets : List (List String × String))
    (repo_url : String) (h : (introOf repo_url).length ≤ MAX_TOTAL_CHARS) :
    (build_prompt code_snippets repo_url).length ≤ MAX_TOTAL_CHARS := by
  unfold build_prompt
  rw [String.length_append, join_length]
  exact packBlocks_length_le _ _ h

/-- C1 counterexample: with a repository URL of 100001 characters the preamble
alone is longer than the budget and build_prompt still returns it whole, so
the claim quantified over every repository URL is false on the code. -/
theorem c1_counterexample : MAX_TOTAL_CHARS < (build_prompt [] bigUrl).length := by
  have h2 : (build_prompt [] bigUrl).length = (introOf bigUrl).length := by
    rw [show build_prompt [] bigUrl = introOf bigUrl ++ String.join [] from rfl,
      String.length_append, show (String.join ([] : List String)).length = 0 from rfl]
    omega
  have h3 := introOf_length bigUrl
  have h4 := bigUrl_length
  have h5 : MAX_TOTAL_CHARS = 100000 := rfl
  omega

/-- C1 witness: the amended theorem applied to an ordinary repository URL,
whose preamble fits under the budget. -/
theorem c1_witness :
    (introOf c1Url).length ≤ MAX_TOTAL_CHARS
    ∧ (build_prompt [] c1Url).length ≤ MAX_TOTAL_CHARS := by
  have h : (introOf c1Url).length ≤ MAX_TOTAL_CHARS := by decide
  exact ⟨h, c1_build_prompt_within_budget [] c1Url h⟩

/-- C2: build_prompt includes blocks greedily in input order and stops
permanently at the first block that would overflow the budget: when the
cumulative length, preamble included, first exceeds the budget at block index
k, the output is the preamble followed by exactly the blocks with indices
below k, whatever the sizes of the later blocks. -/
theorem c2_greedy_prefix_stop (code_snippets : List (List String × String))
    (repo_url : String) (k : Nat)
    (hk : k < (code_snippets.map blockOf).length)
    (hfit : (introOf repo_url).length
        + (((code_snippets.map blockOf).take k).map String.length).sum ≤ MAX_TOTAL_CHARS)
    (hover : MAX_TOTAL_CHARS < (introOf repo_url).length
        + (((code_snippets.map blockOf).take (k + 1)).map String.length).sum) :
    build_prompt code_snippets repo_url
      = introOf repo_url ++ String.join ((code_snippets.map blockOf).take k) := by
  unfold build_prompt
  rw [packBlocks_take _ _ k hk hfit hover]

/-- C2 witness: three blocks where the second would overflow the budget; the
output keeps exactly the first block and omits the later ones, although the
third alone would fit. -/
theorem c2_witness :
    1 < (wSnips.map blockOf).length
    ∧ build_prompt wSnips wUrl = introOf wUrl ++ String.join ((wSnips.map blockOf).take 1) := by
  have ht1 : (wSnips.map blockOf).take 1 = [blockOf wSnipA] := rfl
  have ht2 : (wSnips.map blockOf).take (1 + 1) = [blockOf wSnipA, blockOf wSnipB] := rfl
  have hk : 1 < (wSnips.map blockOf).length := by
    rw [List.length_map]
    decide
  have hB : 100016 ≤ (blockOf wSnipB).length := by
    have h1 := blockOf_length (["b.py"]) bigContent
    rw [bigContent_length] at h1
    show 100016 ≤ (blockOf ((["b.py"], bigContent) : List String × String)).length
    omega
  have hfit : (introOf wUrl).length
      + (((wSnips.map blockOf).take 1).map String.length).sum ≤ MAX_TOTAL_CHARS := by
    rw [ht1]
    simp only [List.map_cons, List.map_nil, List.sum_cons, List.sum_nil]
    decide
  have hover : MAX_TOTAL_CHARS < (introOf wUrl).length
      + (((wSnips.map blockOf).take (1 + 1)).map String.length).sum := by
    have hsum : (blockOf wSnipB).length
        ≤ (((wSnips.map blockOf).take (1 + 1)).map String.length).sum := by
      rw [ht2]
      exact sum_two_ge (blockOf wSnipA) (blockOf wSnipB)
    have h1 : MAX_TOTAL_CHARS < (blockOf wSnipB).length :=
      lt_of_lt_of_le (by decide) hB
    exact lt_of_lt_of_le h1 (le_trans hsum (Nat.le_add_left _ _))
  exact ⟨hk, c2_greedy_prefix_stop wSnips wUrl 1 hk hfit hover⟩

/-- C9: the output of build_prompt is always the complete preamble followed by
the concatenation of the blocks of some prefix of the input list; when the
preamble alone is longer than the budget the output is exactly the preamble,
so the budget check never truncates or drops the preamble. -/
theorem c9_preamble_always_whole (code_snippets : List (List String × String))
    (repo_url : String) :
    (∃ k, build_prompt code_snippets repo_url
        = introOf repo_url ++ String.join ((code_snippets.map blockOf).take k))
    ∧ (MAX_TOTAL_CHARS < (introOf repo_url).length →
        build_prompt code_snippets repo_url = introOf repo_url) := by
  constructor
  · obtain ⟨k, hk⟩ := packBlocks_take_exists (code_snippets.map blockOf) (introOf repo_url).length
    refine ⟨k, ?_⟩
    unfold build_prompt
    rw [hk]
  · intro h
    unfold build_prompt
    rw [packBlocks_nil_of_over _ _ h, show String.join ([] : List String) = "" from rfl]
    simp

/-- C9 witness: a repository URL long enough that the preamble alone exceeds
the budget; the returned document is still the whole preamble. -/
theorem c9_witness :
    MAX_TOTAL_CHARS < (introOf bigUrl).length
    ∧ build_prompt [] bigUrl = introOf bigUrl := by
  have h : MAX_TOTAL_CHARS < (introOf bigUrl).length := by
    have h3 := introOf_length bigUrl
    have h4 := bigUrl_length
    have h5 : MAX_TOTAL_CHARS = 100000 := rfl
    omega
  exact ⟨h, (c9_preamble_always_whole [] bigUrl).2 h⟩

/-- C8: for every collected file, whose lowered suffix is by construction in
the allow-list, the language tag used on its fenced code block equals the
extension with the leading dot stripped: the suffix is a dot followed by the
tag, and the block carries the fence opener followed by exactly that tag. -/
theorem c8_fence_tag (p : List String) (c : String)
    (h : pyLower (pySuffix (p.getLastD noName)) ∈ SUPPORTED_EXTENSIONS) :
    pySuffix (p.getLastD noName) = "." ++ tagOf (p.getLastD noName)
    ∧ blockOf (p, c)
      = ("### " ++ renderPath p ++ "\n\n```")
        ++ tagOf (p.getLastD noName) ++ ("\n" ++ c ++ "\n```\n\n") := by
  constructor
  · apply pySuffix_eq_dot_tag
    intro heq
    rw [heq] at h
    exact absurd h (by decide)
  · unfold blockOf
    dsimp only
    simp [String.append_assoc]

/-- C8 witness: a path ending in a .py file yields tag py, and the suffix is
the dot followed by the tag. -/
theorem c8_witness :
    pyLower (pySuffix (wTagPath.getLastD noName)) ∈ SUPPORTED_EXTENSIONS
    ∧ pySuffix (wTagPath.getLastD noName) = "." ++ tagOf (wTagPath.getLastD noName) := by
  have h : pyLower (pySuffix (wTagPath.getLastD noName)) ∈ SUPPORTED_EXTENSIONS := by decide
  exact ⟨h, (c8_fence_tag wTagPath noName h).1⟩

/-- C6: read_file_safe never propagates a failure: it is a total function of
the read outcome that returns the content on success, and on any failure
returns the bracketed placeholder string embedding the error description. -/
theorem c6_read_file_safe_total (outcome : Except String String) :
    (∀ c, outcome = Except.ok c → read_file_safe outcome = c)
    ∧ (∀ e, outcome = Except.error e →
        read_file_safe outcome = "[ERROR reading file: " ++ e ++ "]"
        ∧ ∃ pre post, read_file_safe outcome = pre ++ e ++ post) := by
  constructor
  · intro c hc
    rw [hc]
    rfl
  · intro e he
    rw [he]
    exact ⟨rfl, "[ERROR reading file: ", "]", rfl⟩

/-- C6 witness: a failed read with a concrete error description produces the
placeholder embedding it. -/
theorem c6_witness :
    read_file_safe (Except.error wErrMsg) = "[ERROR reading file: " ++ wErrMsg ++ "]" :=
  ((c6_read_file_safe_total (Except.error wErrMsg)).2 wErrMsg rfl).1

/-- C4: for a response whose JSON has the documented shape, get_code_review
fails exactly when the status is not 200; the error message then embeds the
status code and the response body verbatim, and on status 200 the result is
exactly choices[0].message.content. -/
theorem c4_get_code_review_spec (r : HttpResponse) (j : RBody) (c : RChoice)
    (rest : List RChoice) (hj : r.json = some j) (hc : j.choices = c :: rest) :
    ((∃ e, get_code_review r = Except.error e) ↔ r.status_code ≠ 200)
    ∧ (r.status_code ≠ 200 →
        get_code_review r
          = Except.error ("OpenRouter API error: " ++ toString r.status_code ++ " - " ++ r.text))
    ∧ (r.status_code = 200 → get_code_review r = Except.ok c.message.content) := by
  by_cases h : r.status_code = 200
  · have hget : get_code_review r = Except.ok c.message.content := by
      unfold get_code_review
      rw [if_neg (fun hne => hne h), hj]
      dsimp only
      rw [hc]
    refine ⟨⟨?_, fun hne => absurd h hne⟩, fun hne => absurd h hne, fun _ => hget⟩
    rintro ⟨e, he⟩
    rw [hget] at he
    cases he
  · have hget : get_code_review r
        = Except.error ("OpenRouter API error: " ++ toString r.status_code ++ " - " ++ r.text) := by
      unfold get_code_review
      rw [if_pos h]
    exact ⟨⟨fun _ => h, fun _ => ⟨_, hget⟩⟩, fun _ => hget, fun h200 => absurd h200 h⟩

/-- C4 witness: a 500 response raises, and a 200 response whose JSON carries
content X returns exactly X. -/
theorem c4_witness :
    (∃ e, get_code_review resp500 = Except.error e)
    ∧ get_code_review resp200 = Except.ok msgX := by
  constructor
  · exact ((c4_get_code_review_spec resp500 wBody wChoice [] rfl rfl).1).mpr (by decide)
  · exact (c4_get_code_review_spec resp200 wBody wChoice [] rfl rfl).2.2 rfl

/-- C3: for any list of directory entries, collect_code_files returns exactly
the regular files whose lowered extension is allow-listed and none of whose
relative-path components is excluded; assuming the walk yields distinct paths,
the result is duplicate-free; it is sorted by path, and any permutation of the
same entries yields the identical list, so repeated runs on the same tree
agree. -/
theorem c3_collect_code_files_spec (entries : List FSEntry)
    (hnd : (entries.map FSEntry.parts).Nodup) :
    (∀ p, p ∈ collect_code_files entries ↔
        ∃ e, e ∈ entries ∧ e.isFile = true
          ∧ pyLower (pySuffix (e.parts.getLastD noName)) ∈ SUPPORTED_EXTENSIONS
          ∧ (∀ part ∈ e.parts, part ∉ EXCLUDE_DIRS)
          ∧ e.parts = p)
    ∧ List.Pairwise (fun a b => pathLe a b = true) (collect_code_files entries)
    ∧ (collect_code_files entries).Nodup
    ∧ (∀ entries2 : List FSEntry, entries2.Perm entries →
        collect_code_files entries2 = collect_code_files entries) := by
  refine ⟨?_, ?_, ?_, ?_⟩
  · intro p
    unfold collect_code_files
    rw [List.mem_mergeSort, List.mem_map]
    constructor
    · rintro ⟨e, he, rfl⟩
      rw [List.mem_filter] at he
      obtain ⟨hmem, hallow⟩ := he
      simp only [entryAllowed, Bool.and_eq_true, decide_eq_true_eq, Bool.not_eq_true',
        List.any_eq_false, decide_eq_false_iff_not] at hallow
      exact ⟨e, hmem, hallow.1.1, hallow.1.2, hallow.2, rfl⟩
    · rintro ⟨e, hmem, hfile, hext, hexcl, rfl⟩
      refine ⟨e, ?_, rfl⟩
      rw [List.mem_filter]
      refine ⟨hmem, ?_⟩
      simp only [entryAllowed, Bool.and_eq_true, decide_eq_true_eq, Bool.not_eq_true',
        List.any_eq_false, decide_eq_false_iff_not]
      exact ⟨⟨hfile, hext⟩, hexcl⟩
  · exact List.sorted_mergeSort pathLe_trans pathLe_total _
  · have hsub := (List.filter_sublist (p := entryAllowed) entries).map FSEntry.parts
    exact (List.mergeSort_perm ((entries.filter entryAllowed).map FSEntry.parts)
      pathLe).symm.nodup (hnd.sublist hsub)
  · intro entries2 hperm
    have h2 : ((entries2.filter entryAllowed).map FSEntry.parts).Perm
        ((entries.filter entryAllowed).map FSEntry.parts) :=
      (hperm.filter entryAllowed).map FSEntry.parts
    have h3 : (collect_code_files entries2).Perm (collect_code_files entries) :=
      ((List.mergeSort_perm _ pathLe).trans h2).trans (List.mergeSort_perm _ pathLe).symm
    exact @List.eq_of_perm_of_sorted _ (fun a b => pathLe a b = true) ⟨pathLe_antisymm⟩ _ _
      h3 (List.sorted_mergeSort pathLe_trans pathLe_total _)
      (List.sorted_mergeSort pathLe_trans pathLe_total _)

/-- C3 witness: on a tree with an allow-listed file, a file inside an excluded
directory and a non-file entry, the collector keeps exactly the first, and its
output is sorted and duplicate-free. -/
theorem c3_witness :
    (wEntries.map FSEntry.parts).Nodup
    ∧ ["main.py"] ∈ collect_code_files wEntries
    ∧ (collect_code_files wEntries).Nodup := by
  have hnd : (wEntries.map FSEntry.parts).Nodup := by decide
  have h := c3_collect_code_files_spec wEntries hnd
  refine ⟨hnd, ?_, h.2.2.1⟩
  exact (h.1 (["main.py"])).mpr ⟨wEntryMain, by decide, rfl, by decide, by decide, rfl⟩

/-- C5: on every run, whatever the clone and review outcomes and the collected
entries, a scratch directory existing before the fetch is removed before the
clone runs, and when the run ends, by normal return or by a propagated
failure, the scratch path is absent. -/
theorem c5_scratch_cleanup (o : Oracle) (repo_url : String) (w0 : World) :
    (mainRun o repo_url w0).world.scratchExists = false
    ∧ (w0.scratchExists = true →
        (mainRun o repo_url w0).trace.staleRemovedBeforeClone = true) := by
  unfold mainRun runFinally
  cases hco : o.cloneOk
  · cases hcl : o.cloneFailLeavesDir <;> simp
  · cases hfe : (collect_code_files o.entries).isEmpty
    · cases hrv : get_code_review (o.respond (build_prompt
        ((collect_code_files o.entries).map fun p => (p, read_file_safe (o.readOutcome p)))
        repo_url)) <;> simp [hfe, hrv]
    · simp [hfe]

/-- C5 witness: a run whose clone fails, started while a stale scratch
directory exists: the stale directory is removed before the clone and the
scratch path is absent at the end. -/
theorem c5_witness :
    (mainRun oFail wUrl wWorld).world.scratchExists = false
    ∧ (mainRun oFail wUrl wWorld).trace.staleRemovedBeforeClone = true := by
  have h := c5_scratch_cleanup oFail wUrl wWorld
  exact ⟨h.1, h.2 rfl⟩

/-- C7: when the clone succeeds and the collector finds no matching files,
main prints the no-files message and returns normally: no error, the output
file untouched, and neither the prompt builder nor the review client is
invoked. -/
theorem c7_no_files_early_return (o : Oracle) (repo_url : String) (w0 : World)
    (hclone : o.cloneOk = true)
    (hempty : collect_code_files o.entries = []) :
    (mainRun o repo_url w0).outcome = Except.ok ()
    ∧ (mainRun o repo_url w0).world.output = w0.output
    ∧ (mainRun o repo_url w0).trace.reviewInvoked = false
    ∧ (mainRun o repo_url w0).trace.promptBuilt = false
    ∧ (mainRun o repo_url w0).trace.printedNoFiles = true := by
  unfold mainRun runFinally
  simp [hclone, hempty]

/-- C7 witness: a tree whose only entry lies in an excluded directory: the run
ends normally with no review call and no output write. -/
theorem c7_witness :
    (mainRun oEmpty wUrl wWorld).outcome = Except.ok ()
    ∧ (mainRun oEmpty wUrl wWorld).world.output = wWorld.output
    ∧ (mainRun oEmpty wUrl wWorld).trace.reviewInvoked = false := by
  have hfa : entryAllowed wEntryDep = false := by decide
  have hempty : collect_code_files oEmpty.entries = [] := by
    simp [collect_code_files, oEmpty, hfa]
  have h := c7_no_files_early_return oEmpty wUrl wWorld rfl hempty
  exact ⟨h.1, h.2.1, h.2.2.1⟩

/-- C10: whenever the run fails, whichever stage raised, the output file holds
its prior state: the write to the output path happens only after
get_code_review returns successfully. -/
theorem c10_no_write_on_failure (o : Oracle) (repo_url : String) (w0 : World) (e : String)
    (herr : (mainRun o repo_url w0).outcome = Except.error e) :
    (mainRun o repo_url w0).world.output = w0.output := by
  unfold mainRun runFinally at herr ⊢
  cases hco : o.cloneOk
  · cases hcl : o.cloneFailLeavesDir <;> simp
  · rw [hco] at herr
    cases hfe : (collect_code_files o.entries).isEmpty
    · rw [hfe] at herr
      simp only [Bool.false_eq_true, if_false, Bool.true_eq_false] at herr
      cases hrv : get_code_review (o.respond (build_prompt
          ((collect_code_files o.entries).map fun p => (p, read_file_safe (o.readOutcome p)))
          repo_url))
      · simp [hfe, hrv]
      · rw [hrv] at herr
        simp at herr
    · rw [hfe] at herr
      simp at herr

/-- C10 witness: a run whose clone fails leaves the previously written output
file exactly as it was. -/
theorem c10_witness :
    (mainRun oFail wUrl wWorld).world.output = wWorld.output :=
  c10_no_write_on_failure oFail wUrl wWorld cloneErrMsg rfl

end AICodeReviewer
